import Mathlib

/-!
Verification of the antiderivative anti-aliasing (ADAA) processors from
sim/writeup.py.  The two classes ADAA_1 and ADAA_2 are embedded shallowly:
samples are rationals (exact real arithmetic), the per-loop-iteration body
becomes a step function, and the mutable history variables become explicit
state threaded through a recursion (runFrom).  The concrete hard-clip
nonlinearity and its antiderivatives (signum, hardClip, hardClipAD1,
hardClipAD2) and the instances hardClip_ADAA / hardClip_ADAA2 are embedded
as well.
-/

set_option autoImplicit false

/-- State of the class ADAA_1: the tolerance TOL and the functions f and F1
supplied to the constructor.  The history variable x1 is local to process in
the source and is threaded explicitly below. -/
structure ADAA_1 where
  TOL : ℚ
  f : ℚ → ℚ
  F1 : ℚ → ℚ

/-- Body of one iteration of the loop in ADAA_1.process: given the history
value x1 and the current sample x, produce the output sample y[n]. -/
def ADAA_1.step (a : ADAA_1) (x1 x : ℚ) : ℚ :=
  if |x - x1| < a.TOL then a.f ((x + x1) / 2)
  else (a.F1 x - a.F1 x1) / (x - x1)

/-- The loop of ADAA_1.process starting from history value x1: returns the
list of outputs together with the final history value.  Each iteration emits
ADAA_1.step of the pre-iteration history and then sets the history to the
current sample. -/
def ADAA_1.runFrom (a : ADAA_1) (x1 : ℚ) : List ℚ → List ℚ × ℚ
  | [] => ([], x1)
  | x :: xs => ((a.step x1 x) :: (a.runFrom x xs).1, (a.runFrom x xs).2)

/-- ADAA_1.process: the history is initialized to 0.0 at the top of every
call, then the loop runs over the whole input block. -/
def ADAA_1.process (a : ADAA_1) (xs : List ℚ) : List ℚ :=
  (a.runFrom 0 xs).1

/-- State of the class ADAA_2: tolerance and the functions f, F1, F2. -/
structure ADAA_2 where
  TOL : ℚ
  f : ℚ → ℚ
  F1 : ℚ → ℚ
  F2 : ℚ → ℚ

/-- Inner helper calcD of ADAA_2.process. -/
def ADAA_2.calcD (a : ADAA_2) (x0 x1 : ℚ) : ℚ :=
  if |x0 - x1| < a.TOL then a.F1 ((x0 + x1) / 2)
  else (a.F2 x0 - a.F2 x1) / (x0 - x1)

/-- Inner helper fallback of ADAA_2.process.  Note the branch condition is
the signed comparison delta < TOL, exactly as in the source. -/
def ADAA_2.fallback (a : ADAA_2) (x0 x2 : ℚ) : ℚ :=
  let x_bar := (x0 + x2) / 2
  let delta := x_bar - x0
  if delta < a.TOL then a.f ((x_bar + x0) / 2)
  else (2 / delta) * (a.F1 x_bar + (a.F2 x0 - a.F2 x_bar) / delta)

/-- Body of one iteration of the loop in ADAA_2.process: given the history
values x1 (previous sample) and x2 (sample before that) and the current
sample x, produce the output sample y[n]. -/
def ADAA_2.step (a : ADAA_2) (x1 x2 x : ℚ) : ℚ :=
  if |x - x1| < a.TOL then a.fallback x x2
  else (2 / (x - x2)) * (a.calcD x x1 - a.calcD x1 x2)

/-- The loop of ADAA_2.process from a history pair s = (x1, x2): each
iteration emits ADAA_2.step of the pre-iteration history and then shifts the
history, x2 receiving the old x1 and x1 receiving the current sample. -/
def ADAA_2.runFrom (a : ADAA_2) (s : ℚ × ℚ) : List ℚ → List ℚ × (ℚ × ℚ)
  | [] => ([], s)
  | x :: xs =>
      ((a.step s.1 s.2 x) :: (a.runFrom (x, s.1) xs).1, (a.runFrom (x, s.1) xs).2)

/-- ADAA_2.process: both history variables are initialized to 0.0 at the top
of every call, then the loop runs over the whole input block. -/
def ADAA_2.process (a : ADAA_2) (xs : List ℚ) : List ℚ :=
  (a.runFrom (0, 0) xs).1

/-- signum from the source: int(0 < x) - int(x < 0). -/
def signum (x : ℚ) : ℚ :=
  (if 0 < x then 1 else 0) - (if x < 0 then 1 else 0)

/-- The hard-clip nonlinearity f. -/
def hardClip (x : ℚ) : ℚ :=
  if |x| < 1 then x else signum x

/-- First antiderivative F1 of the hard clip. -/
def hardClipAD1 (x : ℚ) : ℚ :=
  if |x| < 1 then x * x / 2 else x * signum x - 1 / 2

/-- Second antiderivative F2 of the hard clip. -/
def hardClipAD2 (x : ℚ) : ℚ :=
  if |x| < 1 then x * x * x / 6 else ((x * x / 2) + (1 / 6)) * signum x - x / 2

/-- The instance hardClip_ADAA = ADAA_1(hardClip, hardClipAD1, 1.0e-5). -/
def hardClip_ADAA : ADAA_1 :=
  { TOL := 1 / 100000, f := hardClip, F1 := hardClipAD1 }

/-- The instance hardClip_ADAA2 = ADAA_2(hardClip, hardClipAD1, hardClipAD2, 1.0e-5). -/
def hardClip_ADAA2 : ADAA_2 :=
  { TOL := 1 / 100000, f := hardClip, F1 := hardClipAD1, F2 := hardClipAD2 }

/-- History of ADAA_1 at the start of iteration n of a run whose history was
x1 at entry: x1 for n = 0, the sample at index n - 1 afterwards. -/
def prevOf (x1 : ℚ) (xs : List ℚ) (n : ℕ) : ℚ :=
  if n = 0 then x1 else xs.getD (n - 1) 0

/-- Second history value of ADAA_2 at the start of iteration n of a run whose
history pair was s at entry: s.2 for n = 0, s.1 for n = 1, the sample at
index n - 2 afterwards. -/
def prev2Of (s : ℚ × ℚ) (xs : List ℚ) (n : ℕ) : ℚ :=
  if n = 0 then s.2 else if n = 1 then s.1 else xs.getD (n - 2) 0

/-- Denominators of the divisions performed by one iteration of the loop in
ADAA_1.process: none on the tolerance branch, x - x1 otherwise. -/
def ADAA_1.stepDenoms (a : ADAA_1) (x1 x : ℚ) : List ℚ :=
  if |x - x1| < a.TOL then [] else [x - x1]

/-- Denominators of all divisions performed by the loop of ADAA_1.process
starting from history x1. -/
def ADAA_1.runDenoms (a : ADAA_1) (x1 : ℚ) : List ℚ → List ℚ
  | [] => []
  | x :: xs => a.stepDenoms x1 x ++ a.runDenoms x xs

/-- Denominators of all divisions performed by ADAA_1.process on a block. -/
def ADAA_1.blockDenoms (a : ADAA_1) (xs : List ℚ) : List ℚ :=
  a.runDenoms 0 xs

/-- Denominators of the divisions performed by one call of calcD. -/
def ADAA_2.calcDDenoms (a : ADAA_2) (x0 x1 : ℚ) : List ℚ :=
  if |x0 - x1| < a.TOL then [] else [x0 - x1]

/-- Denominators of the divisions performed by one call of fallback: none on
the direct-evaluation branch, delta twice otherwise (2 / delta and the inner
division by delta). -/
def ADAA_2.fallbackDenoms (a : ADAA_2) (x0 x2 : ℚ) : List ℚ :=
  let x_bar := (x0 + x2) / 2
  let delta := x_bar - x0
  if delta < a.TOL then [] else [delta, delta]

/-- Denominators of all divisions performed by one iteration of the loop in
ADAA_2.process: on the main branch the outer division by x - x2 and the
divisions inside the two calcD calls. -/
def ADAA_2.stepDenoms (a : ADAA_2) (x1 x2 x : ℚ) : List ℚ :=
  if |x - x1| < a.TOL then a.fallbackDenoms x x2
  else (x - x2) :: (a.calcDDenoms x x1 ++ a.calcDDenoms x1 x2)

/-- Denominators of the tolerance-guarded divisions of one iteration of the
loop in ADAA_2.process: as ADAA_2.stepDenoms but without the unguarded outer
division by x - x2 of the main branch. -/
def ADAA_2.guardedStepDenoms (a : ADAA_2) (x1 x2 x : ℚ) : List ℚ :=
  if |x - x1| < a.TOL then a.fallbackDenoms x x2
  else a.calcDDenoms x x1 ++ a.calcDDenoms x1 x2

/-- Denominators of all divisions performed by the loop of ADAA_2.process
from a history pair. -/
def ADAA_2.runDenoms (a : ADAA_2) (s : ℚ × ℚ) : List ℚ → List ℚ
  | [] => []
  | x :: xs => a.stepDenoms s.1 s.2 x ++ a.runDenoms (x, s.1) xs

/-- Denominators of all divisions performed by ADAA_2.process on a block. -/
def ADAA_2.blockDenoms (a : ADAA_2) (xs : List ℚ) : List ℚ :=
  a.runDenoms (0, 0) xs

/-- Tolerance-guarded denominators of the loop of ADAA_2.process. -/
def ADAA_2.guardedRunDenoms (a : ADAA_2) (s : ℚ × ℚ) : List ℚ → List ℚ
  | [] => []
  | x :: xs => a.guardedStepDenoms s.1 s.2 x ++ a.guardedRunDenoms (x, s.1) xs

/-- Tolerance-guarded denominators of ADAA_2.process on a block. -/
def ADAA_2.guardedBlockDenoms (a : ADAA_2) (xs : List ℚ) : List ℚ :=
  a.guardedRunDenoms (0, 0) xs

/-- A sequence of calls of ADAA_1.process on one object: the object fields
are never mutated by process (the history is a local variable initialized to
0.0 in every call), so each call simply runs process on its own argument. -/
def ADAA_1.callSeq (a : ADAA_1) : List (List ℚ) → List (List ℚ)
  | [] => []
  | xs :: rest => a.process xs :: a.callSeq rest

/-- A sequence of calls of ADAA_2.process on one object. -/
def ADAA_2.callSeq (a : ADAA_2) : List (List ℚ) → List (List ℚ)
  | [] => []
  | xs :: rest => a.process xs :: a.callSeq rest

/-- Both history descriptions shift by one when a sample is consumed. -/
theorem prevOf_cons (s x : ℚ) (t : List ℚ) (m : ℕ) :
    prevOf s (x :: t) (m + 1) = prevOf x t m := by
  cases m with
  | zero => simp [prevOf]
  | succ k => simp [prevOf]

/-- The pair history description shifts accordingly: the old first component
becomes the second component of the next state. -/
theorem prev2Of_cons (s : ℚ × ℚ) (x : ℚ) (t : List ℚ) (m : ℕ) :
    prev2Of s (x :: t) (m + 1) = prev2Of (x, s.1) t m := by
  cases m with
  | zero => simp [prev2Of]
  | succ k =>
      cases k with
      | zero => simp [prev2Of]
      | succ j => simp [prev2Of]

/-- The loop of ADAA_1.process emits exactly one output per input sample. -/
theorem ADAA_1.runFrom_length (a : ADAA_1) :
    ∀ (xs : List ℚ) (s : ℚ), ((a.runFrom s xs).1).length = xs.length := by
  intro xs
  induction xs with
  | nil => intro s; rfl
  | cons x t ih => intro s; simp [ADAA_1.runFrom, ih]

/-- The loop of ADAA_2.process emits exactly one output per input sample. -/
theorem ADAA_2.runFrom_length2 (a : ADAA_2) :
    ∀ (xs : List ℚ) (s : ℚ × ℚ), ((a.runFrom s xs).1).length = xs.length := by
  intro xs
  induction xs with
  | nil => intro s; rfl
  | cons x t ih => intro s; simp [ADAA_2.runFrom, ih]

/-- Output n of the loop of ADAA_1.process is the step function applied to
the history value described by prevOf and the current sample. -/
theorem ADAA_1.runFrom_getD (a : ADAA_1) :
    ∀ (xs : List ℚ) (s : ℚ) (n : ℕ), n < xs.length →
      ((a.runFrom s xs).1).getD n 0 = a.step (prevOf s xs n) (xs.getD n 0) := by
  intro xs
  induction xs with
  | nil => intro s n h; exact absurd h (by simp)
  | cons x t ih =>
      intro s n h
      cases n with
      | zero => simp [ADAA_1.runFrom, prevOf]
      | succ m =>
          have hm : m < t.length := by simpa using h
          simp only [ADAA_1.runFrom, List.getD_cons_succ]
          rw [ih x m hm, prevOf_cons]

/-- Output n of the loop of ADAA_2.process is the step function applied to
the two history values described by prevOf and prev2Of and the current
sample. -/
theorem ADAA_2.runFrom_getD2 (a : ADAA_2) :
    ∀ (xs : List ℚ) (s : ℚ × ℚ) (n : ℕ), n < xs.length →
      ((a.runFrom s xs).1).getD n 0 =
        a.step (prevOf s.1 xs n) (prev2Of s xs n) (xs.getD n 0) := by
  intro xs
  induction xs with
  | nil => intro s n h; exact absurd h (by simp)
  | cons x t ih =>
      intro s n h
      cases n with
      | zero => simp [ADAA_2.runFrom, prevOf, prev2Of]
      | succ m =>
          have hm : m < t.length := by simpa using h
          simp only [ADAA_2.runFrom, List.getD_cons_succ]
          rw [ih (x, s.1) m hm, prevOf_cons, prev2Of_cons]

/-- After consuming the first n samples the history of the ADAA_1 loop is
exactly the value described by prevOf. -/
theorem ADAA_1.runFrom_take_snd (a : ADAA_1) :
    ∀ (xs : List ℚ) (s : ℚ) (n : ℕ), n ≤ xs.length →
      (a.runFrom s (xs.take n)).2 = prevOf s xs n := by
  intro xs
  induction xs with
  | nil =>
      intro s n h
      have hn : n = 0 := Nat.le_zero.mp h
      simp [hn, ADAA_1.runFrom, prevOf]
  | cons x t ih =>
      intro s n h
      cases n with
      | zero => simp [ADAA_1.runFrom, prevOf]
      | succ m =>
          have hm : m ≤ t.length := by simpa using h
          simp only [List.take_succ_cons, ADAA_1.runFrom]
          rw [ih x m hm, prevOf_cons]

/-- After consuming the first n samples the history pair of the ADAA_2 loop
is exactly the pair described by prevOf and prev2Of. -/
theorem ADAA_2.runFrom_take_snd2 (a : ADAA_2) :
    ∀ (xs : List ℚ) (s : ℚ × ℚ) (n : ℕ), n ≤ xs.length →
      (a.runFrom s (xs.take n)).2 = (prevOf s.1 xs n, prev2Of s xs n) := by
  intro xs
  induction xs with
  | nil =>
      intro s n h
      have hn : n = 0 := Nat.le_zero.mp h
      simp [hn, ADAA_2.runFrom, prevOf, prev2Of]
  | cons x t ih =>
      intro s n h
      cases n with
      | zero => simp [ADAA_2.runFrom, prevOf, prev2Of]
      | succ m =>
          have hm : m ≤ t.length := by simpa using h
          simp only [List.take_succ_cons, ADAA_2.runFrom]
          rw [ih (x, s.1) m hm, prevOf_cons, prev2Of_cons]

/-- Running the ADAA_1 loop over an appended block processes the first block
and continues from its final history. -/
theorem ADAA_1.runFrom_append (a : ADAA_1) :
    ∀ (xs ys : List ℚ) (s : ℚ),
      (a.runFrom s (xs ++ ys)).1 =
        (a.runFrom s xs).1 ++ (a.runFrom (a.runFrom s xs).2 ys).1 := by
  intro xs
  induction xs with
  | nil => intro ys s; rfl
  | cons x t ih => intro ys s; simp [ADAA_1.runFrom, ih]

/-- Running the ADAA_2 loop over an appended block processes the first block
and continues from its final history pair. -/
theorem ADAA_2.runFrom_append2 (a : ADAA_2) :
    ∀ (xs ys : List ℚ) (s : ℚ × ℚ),
      (a.runFrom s (xs ++ ys)).1 =
        (a.runFrom s xs).1 ++ (a.runFrom (a.runFrom s xs).2 ys).1 := by
  intro xs
  induction xs with
  | nil => intro ys s; rfl
  | cons x t ih => intro ys s; simp [ADAA_2.runFrom, ih]

/-- Call i of a sequence of ADAA_1.process calls returns exactly the result
of process on its own argument. -/
theorem ADAA_1.callSeq_getD (a : ADAA_1) :
    ∀ (xss : List (List ℚ)) (i : ℕ), i < xss.length →
      (a.callSeq xss).getD i [] = a.process (xss.getD i []) := by
  intro xss
  induction xss with
  | nil => intro i h; exact absurd h (by simp)
  | cons xs rest ih =>
      intro i h
      cases i with
      | zero => rfl
      | succ m =>
          have hm : m < rest.length := by simpa using h
          simpa [ADAA_1.callSeq] using ih m hm

/-- Call i of a sequence of ADAA_2.process calls returns exactly the result
of process on its own argument. -/
theorem ADAA_2.callSeq_getD2 (a : ADAA_2) :
    ∀ (xss : List (List ℚ)) (i : ℕ), i < xss.length →
      (a.callSeq xss).getD i [] = a.process (xss.getD i []) := by
  intro xss
  induction xss with
  | nil => intro i h; exact absurd h (by simp)
  | cons xs rest ih =>
      intro i h
      cases i with
      | zero => rfl
      | succ m =>
          have hm : m < rest.length := by simpa using h
          simpa [ADAA_2.callSeq] using ih m hm

/-- Claim C1: for every input sequence xs and every index n, with prev equal
to xs[n-1] for n at least 1 and 0 for n = 0, the output of ADAA_1.process at
index n is f((xs[n] + prev) / 2) when |xs[n] - prev| < tolerance and
(F1(xs[n]) - F1(prev)) / (xs[n] - prev) otherwise. -/
theorem adaa1_per_sample_rule (a : ADAA_1) (xs : List ℚ) (n : ℕ) (h : n < xs.length) :
    (a.process xs).getD n 0 =
      if |xs.getD n 0 - prevOf 0 xs n| < a.TOL
      then a.f ((xs.getD n 0 + prevOf 0 xs n) / 2)
      else (a.F1 (xs.getD n 0) - a.F1 (prevOf 0 xs n)) / (xs.getD n 0 - prevOf 0 xs n) := by
  have h1 := a.runFrom_getD xs 0 n h
  simpa [ADAA_1.process, ADAA_1.step] using h1

/-- Witness for C1 at the input [0, 2, 2] and index 1. -/
theorem adaa1_per_sample_rule_witness :
    1 < ([0, 2, 2] : List ℚ).length ∧
    (hardClip_ADAA.process [0, 2, 2]).getD 1 0 =
      (if |([0, 2, 2] : List ℚ).getD 1 0 - prevOf 0 [0, 2, 2] 1| < hardClip_ADAA.TOL
       then hardClip_ADAA.f ((([0, 2, 2] : List ℚ).getD 1 0 + prevOf 0 [0, 2, 2] 1) / 2)
       else (hardClip_ADAA.F1 (([0, 2, 2] : List ℚ).getD 1 0) -
          hardClip_ADAA.F1 (prevOf 0 [0, 2, 2] 1)) /
          (([0, 2, 2] : List ℚ).getD 1 0 - prevOf 0 [0, 2, 2] 1)) :=
  ⟨by simp, adaa1_per_sample_rule hardClip_ADAA [0, 2, 2] 1 (by simp)⟩

/-- Claim C2: for every input sequence and index n, with x_prev1 = xs[n-1]
and x_prev2 = xs[n-2] (0 when out of range), the output of ADAA_2.process at
index n is fallback(xs[n], x_prev2) when |xs[n] - x_prev1| < tolerance and
(2 / (xs[n] - x_prev2)) * (calcD(xs[n], x_prev1) - calcD(x_prev1, x_prev2))
otherwise, where calcD(a, b) is F1((a + b) / 2) when |a - b| < tolerance and
(F2(a) - F2(b)) / (a - b) otherwise. -/
theorem adaa2_per_sample_rule (a : ADAA_2) (xs : List ℚ) (n : ℕ) (h : n < xs.length) :
    ((a.process xs).getD n 0 =
      if |xs.getD n 0 - prevOf 0 xs n| < a.TOL
      then a.fallback (xs.getD n 0) (prev2Of (0, 0) xs n)
      else (2 / (xs.getD n 0 - prev2Of (0, 0) xs n)) *
        (a.calcD (xs.getD n 0) (prevOf 0 xs n) -
          a.calcD (prevOf 0 xs n) (prev2Of (0, 0) xs n))) ∧
    ∀ (p q : ℚ), a.calcD p q =
      if |p - q| < a.TOL then a.F1 ((p + q) / 2) else (a.F2 p - a.F2 q) / (p - q) := by
  constructor
  · have h1 := ADAA_2.runFrom_getD2 a xs (0, 0) n h
    simpa [ADAA_2.process, ADAA_2.step] using h1
  · intro p q
    rfl

/-- Witness for C2 at the input [0, 2, 2] and index 2. -/
theorem adaa2_per_sample_rule_witness :
    2 < ([0, 2, 2] : List ℚ).length ∧
    (((hardClip_ADAA2.process [0, 2, 2]).getD 2 0 =
      if |([0, 2, 2] : List ℚ).getD 2 0 - prevOf 0 [0, 2, 2] 2| < hardClip_ADAA2.TOL
      then hardClip_ADAA2.fallback (([0, 2, 2] : List ℚ).getD 2 0) (prev2Of (0, 0) [0, 2, 2] 2)
      else (2 / (([0, 2, 2] : List ℚ).getD 2 0 - prev2Of (0, 0) [0, 2, 2] 2)) *
        (hardClip_ADAA2.calcD (([0, 2, 2] : List ℚ).getD 2 0) (prevOf 0 [0, 2, 2] 2) -
          hardClip_ADAA2.calcD (prevOf 0 [0, 2, 2] 2) (prev2Of (0, 0) [0, 2, 2] 2))) ∧
    ∀ (p q : ℚ), hardClip_ADAA2.calcD p q =
      if |p - q| < hardClip_ADAA2.TOL then hardClip_ADAA2.F1 ((p + q) / 2)
      else (hardClip_ADAA2.F2 p - hardClip_ADAA2.F2 q) / (p - q)) :=
  ⟨by simp, adaa2_per_sample_rule hardClip_ADAA2 [0, 2, 2] 2 (by simp)⟩

/-- Claim C4: the fallback helper of ADAA_2 branches on the signed comparison
delta < tolerance, returning f((xBar + x0) / 2) when delta < tolerance and
(2 / delta) * (F1(xBar) + (F2(x0) - F2(xBar)) / delta) otherwise, while calcD
and the main rule branch on absolute values.  At x0 = 1, x2 = -1 the signed
test fires (delta = -1 < tolerance) although |delta| is not below tolerance,
so the direct-evaluation branch returns f(1/2) = 1/2 there. -/
theorem adaa2_fallback_signed_branch :
    (∀ (a : ADAA_2) (x0 x2 : ℚ),
        a.fallback x0 x2 =
          if (x0 + x2) / 2 - x0 < a.TOL then a.f (((x0 + x2) / 2 + x0) / 2)
          else (2 / ((x0 + x2) / 2 - x0)) *
            (a.F1 ((x0 + x2) / 2) + (a.F2 x0 - a.F2 ((x0 + x2) / 2)) / ((x0 + x2) / 2 - x0))) ∧
    (∀ (a : ADAA_2) (p q : ℚ),
        a.calcD p q = if |p - q| < a.TOL then a.F1 ((p + q) / 2)
          else (a.F2 p - a.F2 q) / (p - q)) ∧
    (∀ (a : ADAA_2) (x1 x2 x : ℚ),
        a.step x1 x2 x = if |x - x1| < a.TOL then a.fallback x x2
          else (2 / (x - x2)) * (a.calcD x x1 - a.calcD x1 x2)) ∧
    ((1 + -1 : ℚ) / 2 - 1 < hardClip_ADAA2.TOL) ∧
    ¬ (|(1 + -1 : ℚ) / 2 - 1| < hardClip_ADAA2.TOL) ∧
    hardClip_ADAA2.fallback 1 (-1) = 1 / 2 := by
  refine ⟨fun a x0 x2 => rfl, fun a p q => rfl, fun a x1 x2 x => rfl, ?_, ?_, ?_⟩
  · norm_num [hardClip_ADAA2]
  · norm_num [hardClip_ADAA2]
  · norm_num [ADAA_2.fallback, hardClip_ADAA2, hardClip, signum, abs_lt]

/-- Claim C6: the hard-clip ADAA_1 instance maps the input [0.0, 2.0, 2.0]
to [0.0, 0.75, 1.0]: index 0 gives f((0 + 0) / 2) = 0 from the zero initial
history, index 1 the direct quotient (F1(2) - F1(0)) / 2 = 3/4, and index 2
the ill-conditioned fallback f(2) = 1. -/
theorem adaa1_hardclip_scenario :
    hardClip_ADAA.process [0, 2, 2] = [0, 3 / 4, 1] := by
  norm_num [ADAA_1.process, ADAA_1.runFrom, ADAA_1.step, hardClip_ADAA,
    hardClip, hardClipAD1, signum, abs_lt]

/-- Claim C10: calcD is symmetric in its two arguments: the tolerance test
compares absolute differences and both branches are symmetric expressions. -/
theorem adaa2_calcD_symm (a : ADAA_2) (x0 x1 : ℚ) : a.calcD x0 x1 = a.calcD x1 x0 := by
  simp only [ADAA_2.calcD, abs_sub_comm x1 x0]
  by_cases h : |x0 - x1| < a.TOL
  · rw [if_pos h, if_pos h, add_comm]
  · rw [if_neg h, if_neg h, show x1 - x0 = -(x0 - x1) by ring,
      show a.F2 x1 - a.F2 x0 = -(a.F2 x0 - a.F2 x1) by ring, neg_div_neg_eq]

/-- Every denominator recorded for calcD passed its tolerance guard. -/
theorem ADAA_2.calcDDenoms_mem (a : ADAA_2) (p q d : ℚ)
    (h : d ∈ a.calcDDenoms p q) : a.TOL ≤ |d| := by
  by_cases hc : |p - q| < a.TOL
  · simp [ADAA_2.calcDDenoms, hc] at h
  · simp [ADAA_2.calcDDenoms, hc] at h
    rw [h]
    exact not_lt.mp hc

/-- Every denominator recorded for fallback passed its tolerance guard. -/
theorem ADAA_2.fallbackDenoms_mem (a : ADAA_2) (x0 x2 d : ℚ)
    (h : d ∈ a.fallbackDenoms x0 x2) : a.TOL ≤ |d| := by
  by_cases hc : (x0 + x2) / 2 - x0 < a.TOL
  · simp [ADAA_2.fallbackDenoms, hc] at h
  · simp [ADAA_2.fallbackDenoms, hc] at h
    rw [h]
    exact le_trans (not_lt.mp hc) (le_abs_self _)

/-- Every denominator of the ADAA_1 loop has magnitude at least TOL. -/
theorem ADAA_1.runDenoms_mem (a : ADAA_1) :
    ∀ (xs : List ℚ) (s d : ℚ), d ∈ a.runDenoms s xs → a.TOL ≤ |d| := by
  intro xs
  induction xs with
  | nil => intro s d h; exact absurd h (by simp [ADAA_1.runDenoms])
  | cons x t ih =>
      intro s d h
      simp only [ADAA_1.runDenoms, List.mem_append] at h
      rcases h with h | h
      · by_cases hc : |x - s| < a.TOL
        · simp [ADAA_1.stepDenoms, hc] at h
        · simp [ADAA_1.stepDenoms, hc] at h
          rw [h]
          exact not_lt.mp hc
      · exact ih x d h

/-- Every tolerance-guarded denominator of the ADAA_2 loop has magnitude at
least TOL. -/
theorem ADAA_2.guardedRunDenoms_mem (a : ADAA_2) :
    ∀ (xs : List ℚ) (s : ℚ × ℚ) (d : ℚ), d ∈ a.guardedRunDenoms s xs → a.TOL ≤ |d| := by
  intro xs
  induction xs with
  | nil => intro s d h; exact absurd h (by simp [ADAA_2.guardedRunDenoms])
  | cons x t ih =>
      intro s d h
      simp only [ADAA_2.guardedRunDenoms, List.mem_append] at h
      rcases h with h | h
      · by_cases hc : |x - s.1| < a.TOL
        · rw [ADAA_2.guardedStepDenoms, if_pos hc] at h
          exact a.fallbackDenoms_mem x s.2 d h
        · rw [ADAA_2.guardedStepDenoms, if_neg hc] at h
          rcases List.mem_append.mp h with h | h
          · exact a.calcDDenoms_mem x s.1 d h
          · exact a.calcDDenoms_mem s.1 s.2 d h
      · exact ih (x, s.1) d h

/-- Claim C3, amended: every division performed by ADAA_1.process has a
denominator of magnitude at least the tolerance, and so does every division
inside the tolerance-guarded helpers calcD and fallback of ADAA_2.process;
the outer division by x - x_prev2 on the main branch of ADAA_2.process is
not covered because it is unguarded (see the counterexample). -/
theorem adaa_denominators_guarded (a1 : ADAA_1) (a2 : ADAA_2) (xs : List ℚ) (d : ℚ) :
    (d ∈ a1.blockDenoms xs → a1.TOL ≤ |d|) ∧
    (d ∈ a2.guardedBlockDenoms xs → a2.TOL ≤ |d|) :=
  ⟨fun h => a1.runDenoms_mem xs 0 d h,
   fun h => a2.guardedRunDenoms_mem xs (0, 0) d h⟩

/-- Witness for the amended C3: on the input [0, 2] both processors perform
a division with denominator 2, whose magnitude is at least the tolerance. -/
theorem adaa_denominators_guarded_witness :
    (2 : ℚ) ∈ hardClip_ADAA.blockDenoms [0, 2] ∧
    (2 : ℚ) ∈ hardClip_ADAA2.guardedBlockDenoms [0, 2] ∧
    hardClip_ADAA.TOL ≤ |(2 : ℚ)| ∧ hardClip_ADAA2.TOL ≤ |(2 : ℚ)| :=
  ⟨by norm_num [ADAA_1.blockDenoms, ADAA_1.runDenoms, ADAA_1.stepDenoms,
      hardClip_ADAA, abs_lt],
   by norm_num [ADAA_2.guardedBlockDenoms, ADAA_2.guardedRunDenoms,
      ADAA_2.guardedStepDenoms, ADAA_2.calcDDenoms, ADAA_2.fallbackDenoms,
      hardClip_ADAA2, abs_lt],
   (adaa_denominators_guarded hardClip_ADAA hardClip_ADAA2 [0, 2] 2).1
     (by norm_num [ADAA_1.blockDenoms, ADAA_1.runDenoms, ADAA_1.stepDenoms,
        hardClip_ADAA, abs_lt]),
   (adaa_denominators_guarded hardClip_ADAA hardClip_ADAA2 [0, 2] 2).2
     (by norm_num [ADAA_2.guardedBlockDenoms, ADAA_2.guardedRunDenoms,
        ADAA_2.guardedStepDenoms, ADAA_2.calcDDenoms, ADAA_2.fallbackDenoms,
        hardClip_ADAA2, abs_lt])⟩

/-- Counterexample to C3 as stated: on the input [1, 0] the second iteration
of ADAA_2.process takes the main branch (|0 - 1| is not below tolerance) and
divides by x - x_prev2 = 0 - 0 = 0, a denominator of magnitude below the
tolerance, so not every division is diverted to a tolerance-gated branch. -/
theorem adaa2_unguarded_denominator :
    (0 : ℚ) ∈ hardClip_ADAA2.blockDenoms [1, 0] ∧
    ¬ hardClip_ADAA2.TOL ≤ |(0 : ℚ)| := by
  constructor
  · norm_num [ADAA_2.blockDenoms, ADAA_2.runDenoms, ADAA_2.stepDenoms,
      ADAA_2.calcDDenoms, ADAA_2.fallbackDenoms, hardClip_ADAA2, abs_lt]
  · norm_num [hardClip_ADAA2]

/-- Reading a replicated list below its length always yields the element. -/
theorem replicate_getD (m k : ℕ) (c : ℚ) (h : k < m) :
    (List.replicate m c).getD k 0 = c := by
  induction m generalizing k with
  | zero => exact absurd h (Nat.not_lt_zero k)
  | succ m ih =>
      cases k with
      | zero => rfl
      | succ j => exact ih j (Nat.lt_of_succ_lt_succ h)

/-- Claim C5, amended: for positive tolerance, feeding a constant sequence c
through ADAA_1 yields f(c) at every index from 1 on, and through ADAA_2 at
every index from 2 on, i.e. strictly after the processor has filled its
history with c.  At the first index where the ill-conditioned branch engages
the output can differ from f(c) (see the counterexample). -/
theorem adaa_dc_settles (a1 : ADAA_1) (a2 : ADAA_2) (c : ℚ) (m n : ℕ)
    (h1 : 0 < a1.TOL) (h2 : 0 < a2.TOL) (hn : n < m) :
    (1 ≤ n → (a1.process (List.replicate m c)).getD n 0 = a1.f c) ∧
    (2 ≤ n → (a2.process (List.replicate m c)).getD n 0 = a2.f c) := by
  have hlen : (List.replicate m c).length = m := List.length_replicate m c
  have hx : (List.replicate m c).getD n 0 = c := replicate_getD m n c hn
  constructor
  · intro hn1
    have hne : n ≠ 0 := by omega
    have hprev : prevOf 0 (List.replicate m c) n = c := by
      rw [prevOf, if_neg hne]
      exact replicate_getD m (n - 1) c (by omega)
    have hstep := a1.runFrom_getD (List.replicate m c) 0 n (by rw [hlen]; exact hn)
    have hgoal : (a1.process (List.replicate m c)).getD n 0 =
        a1.step (prevOf 0 (List.replicate m c) n) ((List.replicate m c).getD n 0) := hstep
    rw [hgoal, hprev, hx]
    simp [ADAA_1.step, h1, add_self_div_two]
  · intro hn2
    have hne : n ≠ 0 := by omega
    have hne1 : n ≠ 1 := by omega
    have hprev : prevOf 0 (List.replicate m c) n = c := by
      rw [prevOf, if_neg hne]
      exact replicate_getD m (n - 1) c (by omega)
    have hprev2 : prev2Of (0, 0) (List.replicate m c) n = c := by
      rw [prev2Of, if_neg hne, if_neg hne1]
      exact replicate_getD m (n - 2) c (by omega)
    have hstep := a2.runFrom_getD2 (List.replicate m c) (0, 0) n (by rw [hlen]; exact hn)
    have hgoal : (a2.process (List.replicate m c)).getD n 0 =
        a2.step (prevOf 0 (List.replicate m c) n) (prev2Of (0, 0) (List.replicate m c) n)
          ((List.replicate m c).getD n 0) := hstep
    rw [hgoal, hprev, hprev2, hx]
    simp [ADAA_2.step, ADAA_2.fallback, h2, add_self_div_two]

/-- Witness for the amended C5 at c = 1, block length 3, index 2. -/
theorem adaa_dc_settles_witness :
    0 < hardClip_ADAA.TOL ∧ 0 < hardClip_ADAA2.TOL ∧ 2 < 3 ∧
    ((1 ≤ 2 → (hardClip_ADAA.process (List.replicate 3 1)).getD 2 0 = hardClip_ADAA.f 1) ∧
     (2 ≤ 2 → (hardClip_ADAA2.process (List.replicate 3 1)).getD 2 0 = hardClip_ADAA2.f 1)) :=
  ⟨by norm_num [hardClip_ADAA], by norm_num [hardClip_ADAA2], by norm_num,
   adaa_dc_settles hardClip_ADAA hardClip_ADAA2 1 3 2
     (by norm_num [hardClip_ADAA]) (by norm_num [hardClip_ADAA2]) (by norm_num)⟩

/-- Counterexample to C5 as stated: on the constant sequence [1, 1] the
ill-conditioned branch of hard-clip ADAA_2 first engages at index 1 (index 0
has delta 1, not small), and its output there is fallback(1, 0) = f(3/4) =
3/4, which differs from f(1) = 1; so the output is not f(c) at every index
from the first engagement onward. -/
theorem adaa2_dc_engaged_output_differs :
    ¬ |([1, 1] : List ℚ).getD 0 0 - 0| < hardClip_ADAA2.TOL ∧
    |([1, 1] : List ℚ).getD 1 0 - ([1, 1] : List ℚ).getD 0 0| < hardClip_ADAA2.TOL ∧
    (hardClip_ADAA2.process [1, 1]).getD 1 0 = 3 / 4 ∧
    hardClip_ADAA2.f 1 = 1 ∧ (3 / 4 : ℚ) ≠ 1 := by
  refine ⟨by norm_num [hardClip_ADAA2], by norm_num [hardClip_ADAA2], ?_,
    by norm_num [hardClip_ADAA2, hardClip, signum, abs_lt], by norm_num⟩
  norm_num [ADAA_2.process, ADAA_2.runFrom, ADAA_2.step, ADAA_2.calcD,
    ADAA_2.fallback, hardClip_ADAA2, hardClip, hardClipAD1, hardClipAD2,
    signum, abs_lt]

/-- Claim C7: before the step that processes sample n, the ADAA_1 history
equals the input sample of the immediately preceding step (0 for n = 0), and
the ADAA_2 history pair equals (xs[n-1], xs[n-2]) with 0 out of range; each
iteration computes its output from the pre-iteration history and then
updates the history exactly once, the second slot receiving the old first
slot and the first slot receiving the current sample. -/
theorem adaa_history_invariant (a1 : ADAA_1) (a2 : ADAA_2) (xs : List ℚ) (n : ℕ)
    (h : n < xs.length) :
    (a1.runFrom 0 (xs.take n)).2 = prevOf 0 xs n ∧
    (a2.runFrom (0, 0) (xs.take n)).2 = (prevOf 0 xs n, prev2Of (0, 0) xs n) ∧
    (∀ (s x : ℚ) (t : List ℚ),
        a1.runFrom s (x :: t) = (a1.step s x :: (a1.runFrom x t).1, (a1.runFrom x t).2)) ∧
    (∀ (s : ℚ × ℚ) (x : ℚ) (t : List ℚ),
        a2.runFrom s (x :: t) =
          (a2.step s.1 s.2 x :: (a2.runFrom (x, s.1) t).1, (a2.runFrom (x, s.1) t).2)) :=
  ⟨a1.runFrom_take_snd xs 0 n (le_of_lt h),
   a2.runFrom_take_snd2 xs (0, 0) n (le_of_lt h),
   fun _ _ _ => rfl, fun _ _ _ => rfl⟩

/-- Witness for C7 at the input [3, 5] and index 1. -/
theorem adaa_history_invariant_witness :
    1 < ([3, 5] : List ℚ).length ∧
    ((hardClip_ADAA.runFrom 0 (([3, 5] : List ℚ).take 1)).2 = prevOf 0 [3, 5] 1 ∧
     (hardClip_ADAA2.runFrom (0, 0) (([3, 5] : List ℚ).take 1)).2 =
       (prevOf 0 [3, 5] 1, prev2Of (0, 0) [3, 5] 1) ∧
     (∀ (s x : ℚ) (t : List ℚ),
        hardClip_ADAA.runFrom s (x :: t) =
          (hardClip_ADAA.step s x :: (hardClip_ADAA.runFrom x t).1,
            (hardClip_ADAA.runFrom x t).2)) ∧
     (∀ (s : ℚ × ℚ) (x : ℚ) (t : List ℚ),
        hardClip_ADAA2.runFrom s (x :: t) =
          (hardClip_ADAA2.step s.1 s.2 x :: (hardClip_ADAA2.runFrom (x, s.1) t).1,
            (hardClip_ADAA2.runFrom (x, s.1) t).2))) :=
  ⟨by simp, adaa_history_invariant hardClip_ADAA hardClip_ADAA2 [3, 5] 1 (by simp)⟩

/-- Claim C8: both processors return exactly one output per input sample, in
input order: the output block has the length of the input block, and the
outputs for a prefix of the input are unchanged by whatever follows, so the
samples are processed sequentially from first to last with index
correspondence preserved. -/
theorem adaa_block_shape (a1 : ADAA_1) (a2 : ADAA_2) (xs ys : List ℚ) :
    (a1.process xs).length = xs.length ∧
    (a2.process xs).length = xs.length ∧
    (a1.process (xs ++ ys)).take xs.length = a1.process xs ∧
    (a2.process (xs ++ ys)).take xs.length = a2.process xs := by
  refine ⟨a1.runFrom_length xs 0, a2.runFrom_length2 xs (0, 0), ?_, ?_⟩
  · show ((a1.runFrom 0 (xs ++ ys)).1).take xs.length = (a1.runFrom 0 xs).1
    rw [a1.runFrom_append xs ys 0]
    exact List.take_left' (a1.runFrom_length xs 0)
  · show ((a2.runFrom (0, 0) (xs ++ ys)).1).take xs.length = (a2.runFrom (0, 0) xs).1
    rw [a2.runFrom_append2 xs ys (0, 0)]
    exact List.take_left' (a2.runFrom_length2 xs (0, 0))

/-- Claim C9: process initializes its history to zero on every call, so in a
sequence of calls on one object each call returns exactly process of its own
argument, and two calls with equal input blocks return equal outputs,
independent of any earlier call. -/
theorem adaa_per_call_purity (a1 : ADAA_1) (a2 : ADAA_2) (xss : List (List ℚ))
    (i j : ℕ) (hi : i < xss.length) (hj : j < xss.length)
    (hij : xss.getD i [] = xss.getD j []) :
    (a1.callSeq xss).getD i [] = a1.process (xss.getD i []) ∧
    (a2.callSeq xss).getD i [] = a2.process (xss.getD i []) ∧
    (a1.callSeq xss).getD i [] = (a1.callSeq xss).getD j [] ∧
    (a2.callSeq xss).getD i [] = (a2.callSeq xss).getD j [] := by
  refine ⟨a1.callSeq_getD xss i hi, a2.callSeq_getD2 xss i hi, ?_, ?_⟩
  · rw [a1.callSeq_getD xss i hi, a1.callSeq_getD xss j hj, hij]
  · rw [a2.callSeq_getD2 xss i hi, a2.callSeq_getD2 xss j hj, hij]

/-- Witness for C9 with two calls carrying the equal input block [1]. -/
theorem adaa_per_call_purity_witness :
    0 < ([[1], [1]] : List (List ℚ)).length ∧
    1 < ([[1], [1]] : List (List ℚ)).length ∧
    ([[1], [1]] : List (List ℚ)).getD 0 [] = ([[1], [1]] : List (List ℚ)).getD 1 [] ∧
    ((hardClip_ADAA.callSeq [[1], [1]]).getD 0 [] =
        hardClip_ADAA.process (([[1], [1]] : List (List ℚ)).getD 0 []) ∧
     (hardClip_ADAA2.callSeq [[1], [1]]).getD 0 [] =
        hardClip_ADAA2.process (([[1], [1]] : List (List ℚ)).getD 0 []) ∧
     (hardClip_ADAA.callSeq [[1], [1]]).getD 0 [] =
        (hardClip_ADAA.callSeq [[1], [1]]).getD 1 [] ∧
     (hardClip_ADAA2.callSeq [[1], [1]]).getD 0 [] =
        (hardClip_ADAA2.callSeq [[1], [1]]).getD 1 []) :=
  ⟨by simp, by simp, by simp,
   adaa_per_call_purity hardClip_ADAA hardClip_ADAA2 [[1], [1]] 0 1
     (by simp) (by simp) (by simp)⟩
